import Mathlib

/-!
Verification of the download-orchestration core of `hf_model_downloader_gui.py`.

The worker (`DownloadWorker`) is embedded as a small-step machine: the
worker thread's `run` method is cut into atomic steps at its observable
control points (loop head, supervision poll, pause-gate wait, post-wait
exit-code handling), and the controller methods `stop`, `pause`, `resume`
are separate atomic actions that may interleave at any step boundary.
External nondeterminism (whether the aria2c process has exited, its exit
code, and its stderr text) is supplied by an environment choice per worker
step.  Machine integers do not occur; the progress percentage
`int((i + 1) / total * 100)` is modelled as exact natural floor division
`(i + 1) * 100 / total` (the Python expression goes through float
arithmetic, whose rounding is not modelled).
-/

namespace HFDL

/-- The Qt signals emitted by `DownloadWorker` (progress, finished,
cancelled, paused, resumed, error). -/
inductive Event where
  | progress (percent : Nat) (file : String)
  | finished
  | cancelled
  | pausedEv
  | resumedEv
  | error (msg : String)
deriving DecidableEq

/-- Control points of `DownloadWorker.run`: before the length check
(`start`), at the for-loop head for file `i` (`loopTop i`), inside the
inner supervision loop for file `i` (`supervise i`), blocked in
`pause_requested.wait()` (`waitGate i`), after `process.wait()` returned
`rc` with stderr text `err` (`afterExit i rc err`), and returned
(`done`). -/
inductive PC where
  | start
  | loopTop (i : Nat)
  | supervise (i : Nat)
  | waitGate (i : Nat)
  | afterExit (i : Nat) (rc : Nat) (err : String)
  | done
deriving DecidableEq

/-- One launch of the external aria2c process: target URL, `--dir`
argument, `--out` argument, and the full command line. -/
structure Invocation where
  url : String
  dir : String
  out : String
  cmd : List String
deriving DecidableEq

/-- The immutable inputs of a `DownloadWorker`, plus the environment
facts `run` consults: the resolved `resource_path("aria2c.exe")` and
whether a file exists there. -/
structure Params where
  repo_id : String
  local_dir : String
  selected_files : List String
  speed_limit : Option String
  aria2cPath : String
  aria2cExists : Bool
deriving DecidableEq

/-- Model of `os.path.join` for the relative components this program joins. -/
def pathJoin (a b : String) : String := a ++ "/" ++ b

/-- Split a character list at every occurrence of `sep` (the semantics
of Python `s.split(sep)` for a one-character separator, written by
structural recursion so that it evaluates in the kernel). -/
def splitCharAux (sep : Char) : List Char → List Char → List (List Char)
  | [], acc => [acc.reverse]
  | c :: cs, acc =>
      if c = sep then acc.reverse :: splitCharAux sep cs []
      else splitCharAux sep cs (c :: acc)

/-- Python `s.split("/")`. -/
def splitSlash (s : String) : List String :=
  (splitCharAux '/' s.toList []).map (fun l => ⟨l⟩)

/-- Join path components back with "/". -/
def joinSlash : List String → String
  | [] => ""
  | [x] => x
  | x :: xs => x ++ "/" ++ joinSlash xs

/-- Python `s.split("/")[-1]`, used for `model_name`. -/
def lastSegment (s : String) : String := (splitSlash s).getLastD ""

/-- Python `os.path.dirname` on the slash-normalised relative paths
this program builds (everything before the last "/"). -/
def dirname (s : String) : String := joinSlash (splitSlash s).dropLast

/-- Python `os.path.basename` on the same paths (everything after the
last "/"). -/
def basename (s : String) : String := (splitSlash s).getLastD ""

/-- Model of `int((k) / n * 100)` of line 142, as exact floor division. -/
def percentOf (k n : Nat) : Nat := k * 100 / n

/-- Python truthiness of `self.speed_limit` (line 90): `None` and the
empty string are falsy. -/
def slTruthy : Option String → Bool
  | none => false
  | some s => !(s == "")

/-- The string value carried by `self.speed_limit` when truthy. -/
def slString : Option String → String
  | none => ""
  | some s => s

/-- The destination path of line 75:
`os.path.join(final_dir, file_path)` with
`final_dir = os.path.join(local_dir, model_name)`. -/
def fullPathOf (p : Params) (file : String) : String :=
  pathJoin (pathJoin p.local_dir (lastSegment p.repo_id)) file

/-- The source URL of line 73. -/
def urlOf (p : Params) (file : String) : String :=
  "https://huggingface.co/" ++ p.repo_id ++ "/resolve/main/" ++ file

/-- The aria2c command line of lines 79-88, before the speed-limit
extension. -/
def baseCmd (p : Params) (file : String) : List String :=
  [p.aria2cPath, "-x", "16", "-s", "16", "-j", "5", "--continue=true",
   "--dir", dirname (fullPathOf p file), "--out", basename (fullPathOf p file),
   urlOf p file]

/-- The aria2c command line after lines 90-91. -/
def buildCmd (p : Params) (file : String) : List String :=
  baseCmd p file ++
    (if slTruthy p.speed_limit then ["--max-download-limit", slString p.speed_limit] else [])

/-- The invocation record for one file. -/
def mkInvocation (p : Params) (file : String) : Invocation :=
  { url := urlOf p file, dir := dirname (fullPathOf p file),
    out := basename (fullPathOf p file), cmd := buildCmd p file }

/-- The message of line 62. -/
def toolingMissingMsg (p : Params) : String := "未找到 aria2c.exe: " ++ p.aria2cPath

/-- The message of line 148, with `str(e)` from the exception of
line 139 inlined. -/
def transferFailMsg (file : String) (rc : Nat) (err : String) : String :=
  "下载失败: " ++ file ++ "\n错误: " ++
    "aria2c 下载失败 (退出码 " ++ toString rc ++ "): " ++ err

/-- Mutable worker state: the `running` / `is_paused` booleans, the
`pause_requested` threading.Event (`gateSet` = set), the control point,
plus traces of the side effects performed so far: the directories handed
to `os.makedirs`, the processes spawned, the `process.wait()` results,
and the Qt signals emitted. -/
structure Config where
  running : Bool
  is_paused : Bool
  gateSet : Bool
  pc : PC
  createdDirs : List String
  invocations : List Invocation
  waits : List Nat
  events : List Event
deriving DecidableEq

/-- Initial state per `DownloadWorker.__init__`: running, not paused, gate set, at the
beginning of `run`. -/
def initConfig : Config :=
  { running := true, is_paused := false, gateSet := true, pc := .start,
    createdDirs := [], invocations := [], waits := [], events := [] }

/-- Environment choice consumed by one worker step: either the external
process has not exited yet (`poll`, one more pass of the readline loop),
or it has exited with code `rc` and stderr text `err`. -/
inductive EnvC where
  | poll
  | exits (rc : Nat) (err : String)
deriving DecidableEq

/-- Exit code the environment reports from `process.wait()`; when the
process was terminated without a reported code, 1 (the typical aria2c
code after SIGTERM; no claim depends on this value). -/
def EnvC.rc : EnvC → Nat
  | .poll => 1
  | .exits rc _ => rc

/-- Stderr text the environment reports. -/
def EnvC.err : EnvC → String
  | .poll => ""
  | .exits _ e => e

/-- One atomic step of the worker thread executing `DownloadWorker.run`,
given the environment choice `e`. -/
def workStep (p : Params) (c : Config) (e : EnvC) : Config :=
  match c.pc with
  | .start =>
      -- lines 47-50: `total = len(...)`; empty list emits finished and returns
      if p.selected_files.length = 0 then
        { c with pc := .done, events := c.events ++ [.finished] }
      else
        -- lines 53-56: derive model_name, makedirs(final_dir)
        let finalDir := pathJoin p.local_dir (lastSegment p.repo_id)
        let c1 := { c with createdDirs := c.createdDirs ++ [finalDir] }
        -- lines 59-63: locate aria2c; missing → error and return
        if p.aria2cExists then { c1 with pc := .loopTop 0 }
        else { c1 with pc := .done, events := c1.events ++ [.error (toolingMissingMsg p)] }
  | .loopTop i =>
      match p.selected_files.get? i with
      | none =>
          -- the for-loop is exhausted; line 152 emits finished unconditionally
          { c with pc := .done, events := c.events ++ [.finished] }
      | some file =>
          -- lines 66-69: the per-iteration running check
          if !c.running then
            { c with pc := .done, events := c.events ++ [.cancelled] }
          else
            -- lines 72-104: build url/path, makedirs, spawn aria2c
            { c with pc := .supervise i,
                     createdDirs := c.createdDirs ++ [dirname (fullPathOf p file)],
                     invocations := c.invocations ++ [mkInvocation p file] }
  | .supervise i =>
      -- lines 107-130, one pass of the readline loop
      if !c.running then
        -- lines 108-110: terminate and break; then line 133 process.wait()
        { c with pc := .afterExit i e.rc e.err, waits := c.waits ++ [e.rc] }
      else if c.is_paused then
        -- lines 113-116: enter pause_requested.wait()
        { c with pc := .waitGate i }
      else
        -- lines 124-130: readline; exit the loop when the process is gone
        match e with
        | .poll => c
        | .exits rc err =>
            { c with pc := .afterExit i rc err, waits := c.waits ++ [rc] }
  | .waitGate i =>
      -- line 116: blocked until the gate is set
      if !c.gateSet then c
      else if !c.running then
        -- lines 117-120: stop arrived while paused
        { c with pc := .done, events := c.events ++ [.cancelled] }
      else
        -- line 122: resume, continue the readline loop
        { c with pc := .supervise i }
  | .afterExit i rc err =>
      -- lines 136-139: abnormal exit while not user-stopped raises, and
      -- lines 145-149 convert it to the error signal and return
      if rc != 0 && c.running then
        { c with pc := .done,
                 events := c.events ++
                   [.error (transferFailMsg ((p.selected_files.get? i).getD "") rc err)] }
      else
        -- lines 141-143: progress update, then the next loop iteration
        { c with pc := .loopTop (i + 1),
                 events := c.events ++
                   [.progress (percentOf (i + 1) p.selected_files.length)
                      ((p.selected_files.get? i).getD "")] }
  | .done => c

/-- Model of `DownloadWorker.stop` (lines 154-159). -/
def stopStep (c : Config) : Config :=
  { c with running := false, is_paused := false, gateSet := true }

/-- Model of `DownloadWorker.pause` (lines 161-165). -/
def pauseStep (c : Config) : Config :=
  if c.running && !c.is_paused then
    { c with is_paused := true, gateSet := false, events := c.events ++ [.pausedEv] }
  else c

/-- Model of `DownloadWorker.resume` (lines 167-171). -/
def resumeStep (c : Config) : Config :=
  if c.running && c.is_paused then
    { c with is_paused := false, gateSet := true, events := c.events ++ [.resumedEv] }
  else c

/-- An action of the interleaved system: one worker step, or one of the
controller calls. -/
inductive Act where
  | work (e : EnvC)
  | stop
  | pause
  | resume
deriving DecidableEq

/-- Perform one action. -/
def stepAct (p : Params) (c : Config) (a : Act) : Config :=
  match a with
  | .work e => workStep p c e
  | .stop => stopStep c
  | .pause => pauseStep c
  | .resume => resumeStep c

/-- Run a whole schedule of interleaved actions. -/
def execActs (p : Params) (c : Config) (s : List Act) : Config :=
  s.foldl (stepAct p) c

/-- The speed-limit acceptance check of `MainWindow.start_download`,
lines 533-539: with the checkbox on, the stripped text is rejected
(`none` = warning box, no worker created) iff it is nonempty and its
uppercasing contains none of K, M, G; otherwise the worker receives the
stripped text.  With the checkbox off the worker receives `None`. -/
def hasKMG (s : String) : Bool :=
  (s.toList.map Char.toUpper).any (fun c => c == 'K' || c == 'M' || c == 'G')

/-- Python `str.strip()`: drop whitespace from both ends (written over
the character list so that it evaluates in the kernel). -/
def pyStrip (s : String) : String :=
  ⟨((s.toList.dropWhile Char.isWhitespace).reverse.dropWhile Char.isWhitespace).reverse⟩

/-- Result of the configuration step: `none` = rejected, `some sl` =
worker constructed with `speed_limit = sl`. -/
def startSpeedLimit (checkboxChecked : Bool) (text : String) : Option (Option String) :=
  if checkboxChecked then
    let sl := pyStrip text
    if !(sl == "") && !(hasKMG sl) then none
    else some (some sl)
  else some none

/-- Modelled from the spec: the pattern
`<positive integer><K|M|G>` (case-insensitive unit) that section 6 of
the spec says speed-limit strings match.  Used only to compare the
spec's claimed validation against the code's actual check. -/
def specSpeedPattern (s : String) : Bool :=
  match s.toList.getLast? with
  | none => false
  | some u =>
      (u.toUpper == 'K' || u.toUpper == 'M' || u.toUpper == 'G') &&
      !(s.toList.dropLast.isEmpty) &&
      s.toList.dropLast.all (fun c => c.isDigit) &&
      s.toList.dropLast.any (fun c => c != '0')

/-- Terminal lifecycle events. -/
def Event.isTerminalEv : Event → Bool
  | .finished => true
  | .cancelled => true
  | .error _ => true
  | _ => false

/-- Progress events. -/
def Event.isProgressEv : Event → Bool
  | .progress _ _ => true
  | _ => false

/-- Error events. -/
def Event.isErrorEv : Event → Bool
  | .error _ => true
  | _ => false

/-- Finished events. -/
def Event.isFinishedEv : Event → Bool
  | .finished => true
  | _ => false

/-- Number of terminal events in a trace. -/
def terminalCount (es : List Event) : Nat := (es.filter Event.isTerminalEv).length

/-- A worker step with the process reported as exiting cleanly; a run
scheduled entirely with this action is one with no controller activity
and every transfer succeeding. -/
def cleanAct : Act := Act.work (.exits 0 "")

/-- The progress events a clean run emits for files `i, i+1, ...` over
`k` consecutive iterations. -/
def progressFrom (p : Params) (i : Nat) : Nat → List Event
  | 0 => []
  | k + 1 =>
      .progress (percentOf (i + 1) p.selected_files.length) ((p.selected_files.get? i).getD "")
        :: progressFrom p (i + 1) k

/-- The invocations a run launches for files `i, i+1, ...` over `k`
consecutive iterations. -/
def invFrom (p : Params) (i : Nat) : Nat → List Invocation
  | 0 => []
  | k + 1 => mkInvocation p ((p.selected_files.get? i).getD "") :: invFrom p (i + 1) k

/-- The per-file directories `os.makedirs` receives for files
`i, i+1, ...` over `k` consecutive iterations. -/
def dirsFrom (p : Params) (i : Nat) : Nat → List String
  | 0 => []
  | k + 1 => dirname (fullPathOf p ((p.selected_files.get? i).getD "")) :: dirsFrom p (i + 1) k

/-- The schedule of an undisturbed fully successful run over `n` files:
one step past the length/tooling checks, three steps per file, one step
to leave the loop and emit finished. -/
def cleanActs (n : Nat) : List Act := List.replicate (3 * n + 2) cleanAct

/-- A single-file request (the concrete instance used for the stop-race
evaluation). -/
def pOne : Params :=
  { repo_id := "org/model", local_dir := "/out", selected_files := ["a"],
    speed_limit := none, aria2cPath := "aria2c.exe", aria2cExists := true }

/-- A two-file request. -/
def pTwo : Params :=
  { repo_id := "org/model", local_dir := "/out", selected_files := ["a", "b"],
    speed_limit := none, aria2cPath := "aria2c.exe", aria2cExists := true }

/-- A single-file request whose aria2c executable is missing. -/
def pMiss : Params :=
  { repo_id := "org/model", local_dir := "/out", selected_files := ["a"],
    speed_limit := none, aria2cPath := "aria2c.exe", aria2cExists := false }

/-- An empty request whose aria2c executable is missing. -/
def pEmpty : Params :=
  { repo_id := "org/model", local_dir := "/out", selected_files := [],
    speed_limit := none, aria2cPath := "aria2c.exe", aria2cExists := false }

/-- A 102-file request with distinct file names. -/
def pBig : Params :=
  { repo_id := "org/model", local_dir := "/out",
    selected_files := (List.range 102).map (fun j => toString j),
    speed_limit := none, aria2cPath := "aria2c.exe", aria2cExists := true }

/-- Invariant of every run whose file list is non-empty and whose
aria2c executable is missing: the worker never leaves the prologue, no
process is launched, and the only lifecycle event ever emitted is the
tooling-missing error, exactly when the prologue has run. -/
def MissInv (p : Params) (c : Config) : Prop :=
  (c.pc = .start ∨ c.pc = .done) ∧ c.invocations = [] ∧
  c.events.filter Event.isProgressEv = [] ∧
  Event.finished ∉ c.events ∧ Event.cancelled ∉ c.events ∧
  c.events.filter Event.isErrorEv =
    (if c.pc = .done then [.error (toolingMissingMsg p)] else [])

/-- Invariant of every run whose file list is empty: the worker emits
finished from the length check and performs no other work — no
directory creation, no invocation, no progress, error or cancelled
event, whatever the controller does and whether aria2c exists. -/
def EmptyInv (c : Config) : Prop :=
  (c.pc = .start ∨ c.pc = .done) ∧ c.invocations = [] ∧ c.createdDirs = [] ∧
  c.events.filter Event.isProgressEv = [] ∧
  c.events.filter Event.isErrorEv = [] ∧ Event.cancelled ∉ c.events ∧
  c.events.filter Event.isFinishedEv = (if c.pc = .done then [.finished] else [])

/-- Invariant behind C10: once the worker has left the prologue, the
model subdirectory has been handed to `os.makedirs`. -/
def DirInv (p : Params) (c : Config) : Prop :=
  c.pc = .start ∨ pathJoin p.local_dir (lastSegment p.repo_id) ∈ c.createdDirs

theorem execActs_nil (p : Params) (c : Config) : execActs p c [] = c := rfl

theorem execActs_cons (p : Params) (c : Config) (a : Act) (s : List Act) :
    execActs p c (a :: s) = execActs p (stepAct p c a) s := rfl

theorem execActs_append (p : Params) (c : Config) (s t : List Act) :
    execActs p c (s ++ t) = execActs p (execActs p c s) t :=
  List.foldl_append _ _ _ _

/-- An undisturbed all-successful pass over files `i, ..., i+k-1`, three
steps per file, ends back at the loop head for file `i+k` having emitted
exactly the corresponding progress events, launched exactly the
corresponding invocations, and recorded a zero exit per file. -/
theorem clean_seg (p : Params) (k : Nat) : ∀ (i : Nat) (c : Config),
    c.pc = .loopTop i → c.running = true → c.is_paused = false →
    i + k ≤ p.selected_files.length →
    execActs p c (List.replicate (3 * k) cleanAct) =
      { c with pc := .loopTop (i + k),
               events := c.events ++ progressFrom p i k,
               invocations := c.invocations ++ invFrom p i k,
               createdDirs := c.createdDirs ++ dirsFrom p i k,
               waits := c.waits ++ List.replicate k 0 } := by
  induction k with
  | zero =>
      intro i c hpc hrun hp _
      rcases c with ⟨run, pau, gate, pc, dirs, invs, ws, evs⟩
      simp_all [execActs, progressFrom, invFrom, dirsFrom]
  | succ k ih =>
      intro i c hpc hrun hp hle
      have hi : i < p.selected_files.length := by omega
      obtain ⟨file, hfile⟩ : ∃ f, p.selected_files.get? i = some f :=
        ⟨_, List.get?_eq_get hi⟩
      rcases c with ⟨run, pau, gate, pc, dirs, invs, ws, evs⟩
      simp only [Config.mk.injEq] at hpc hrun hp ⊢
      subst hpc hrun hp
      have h3 : 3 * (k + 1) = 3 * k + 3 := by ring
      rw [h3, show (3 * k + 3) = (3 * k + 1 + 1 + 1) by omega,
          List.replicate_succ, List.replicate_succ, List.replicate_succ,
          execActs_cons, execActs_cons, execActs_cons]
      simp only [stepAct, cleanAct, workStep, hfile, Bool.not_true, Bool.false_eq_true,
        if_false, if_true, ite_false, ite_true, bne_self_eq_false, Bool.false_and]
      refine Eq.trans (ih (i + 1) _ ?_ ?_ ?_ ?_) ?_
      · rfl
      · rfl
      · rfl
      · omega
      · simp only [Config.mk.injEq, progressFrom, invFrom, dirsFrom, hfile, Option.getD_some,
          List.replicate_succ, List.append_assoc, List.singleton_append, List.cons_append,
          PC.loopTop.injEq]
        refine ⟨trivial, trivial, trivial, by omega, rfl, rfl, rfl, rfl⟩

/-- A run with a non-empty file list, the aria2c executable present, no
controller activity and every transfer succeeding: it creates the model
directory, launches one invocation per file, records one clean exit per
file, emits one progress event per file followed by finished, and
returns. -/
theorem clean_run (p : Params) (hne : p.selected_files.length ≠ 0) (hb : p.aria2cExists = true) :
    execActs p initConfig (cleanActs p.selected_files.length) =
      { running := true, is_paused := false, gateSet := true, pc := .done,
        createdDirs :=
          pathJoin p.local_dir (lastSegment p.repo_id) :: dirsFrom p 0 p.selected_files.length,
        invocations := invFrom p 0 p.selected_files.length,
        waits := List.replicate p.selected_files.length 0,
        events := progressFrom p 0 p.selected_files.length ++ [.finished] } := by
  have h1 : cleanActs p.selected_files.length =
      cleanAct :: (List.replicate (3 * p.selected_files.length) cleanAct ++ [cleanAct]) := by
    rw [cleanActs, List.replicate_succ, ← List.replicate_succ']
  have hstep1 : stepAct p initConfig cleanAct =
      { running := true, is_paused := false, gateSet := true, pc := .loopTop 0,
        createdDirs := [pathJoin p.local_dir (lastSegment p.repo_id)],
        invocations := [], waits := [], events := [] } := by
    simp [stepAct, cleanAct, workStep, initConfig, hne, hb]
  have hnone : p.selected_files.get? p.selected_files.length = none :=
    List.get?_eq_none.mpr (le_refl _)
  rw [h1, execActs_cons, hstep1, execActs_append,
    clean_seg p p.selected_files.length 0 _ rfl rfl rfl (by omega)]
  simp [execActs, stepAct, cleanAct, workStep, hnone]

/-- The list `progressFrom p i k` has one event per counted file. -/
theorem progressFrom_length (p : Params) (k : Nat) : ∀ i, (progressFrom p i k).length = k := by
  induction k with
  | zero => intro i; rfl
  | succ k ih => intro i; simp [progressFrom, ih]

/-- The `j`-th event of a clean pass over files `i, ..., i+k-1` is the
progress event of file `i+j`. -/
theorem progressFrom_get? (p : Params) (k : Nat) : ∀ i j, j < k →
    (progressFrom p i k).get? j =
      some (.progress (percentOf (i + j + 1) p.selected_files.length)
        ((p.selected_files.get? (i + j)).getD "")) := by
  induction k with
  | zero => intro i j h; omega
  | succ k ih =>
      intro i j h
      cases j with
      | zero => simp [progressFrom]
      | succ j =>
          have h2 : i + (j + 1) = i + 1 + j := by omega
          simp only [progressFrom, List.get?_cons_succ, h2]
          exact ih (i + 1) j (by omega)

/-- A clean pass emits no finished event. -/
theorem progressFrom_no_finished (p : Params) (k : Nat) : ∀ i,
    Event.finished ∉ progressFrom p i k := by
  induction k with
  | zero => intro i; simp [progressFrom]
  | succ k ih => intro i; simp [progressFrom, ih]

/-- The list `invFrom p i k` has one invocation per counted file. -/
theorem invFrom_length (p : Params) (k : Nat) : ∀ i, (invFrom p i k).length = k := by
  induction k with
  | zero => intro i; rfl
  | succ k ih => intro i; simp [invFrom, ih]

/-- Any property preserved by every single action holds after every
schedule. -/
theorem execActs_induct (P : Config → Prop) (p : Params)
    (hstep : ∀ c a, P c → P (stepAct p c a)) :
    ∀ (s : List Act) (c : Config), P c → P (execActs p c s) := by
  intro s
  induction s with
  | nil => intro c h; exact h
  | cons a s ih => intro c h; exact ih _ (hstep c a h)

/-- No action ever removes an entry from the `os.makedirs` trace. -/
theorem stepAct_createdDirs (p : Params) (c : Config) (a : Act) :
    ∃ l, (stepAct p c a).createdDirs = c.createdDirs ++ l := by
  rcases c with ⟨run, pau, gate, pc, dirs, invs, ws, evs⟩
  cases a <;> cases pc <;>
    simp only [stepAct, workStep, stopStep, pauseStep, resumeStep] <;>
    (repeat' split) <;>
    first
      | exact ⟨_, rfl⟩
      | exact ⟨[], by simp⟩

/-- Every invocation a step appends is the invocation the code builds
for some file of the request. -/
theorem stepAct_invocations (p : Params) (c : Config) (a : Act)
    (h : ∀ inv ∈ c.invocations, ∃ file ∈ p.selected_files, inv = mkInvocation p file) :
    ∀ inv ∈ (stepAct p c a).invocations,
      ∃ file ∈ p.selected_files, inv = mkInvocation p file := by
  rcases c with ⟨run, pau, gate, pc, dirs, invs, ws, evs⟩
  cases a with
  | work e =>
      cases pc with
      | start =>
          simp only [stepAct, workStep]
          split
          · exact h
          · split <;> exact h
      | loopTop i =>
          simp only [stepAct, workStep]
          split
          · exact h
          · next file heq =>
              split
              · exact h
              · intro inv hmem
                simp only [List.mem_append, List.mem_singleton] at hmem
                rcases hmem with hm | hm
                · exact h inv hm
                · exact ⟨file, List.get?_mem heq, hm⟩
      | supervise i =>
          simp only [stepAct, workStep]
          split
          · exact h
          · split
            · exact h
            · split <;> exact h
      | waitGate i =>
          simp only [stepAct, workStep]
          split
          · exact h
          · split <;> exact h
      | afterExit i rc err =>
          simp only [stepAct, workStep]
          split <;> exact h
      | done => exact h
  | stop => exact h
  | pause =>
      simp only [stepAct, pauseStep]
      split <;> exact h
  | resume =>
      simp only [stepAct, resumeStep]
      split <;> exact h

/-- Preservation: `MissInv` is preserved by every action. -/
theorem missInv_step (p : Params) (hne : p.selected_files.length ≠ 0)
    (hb : p.aria2cExists = false) (c : Config) (a : Act) (h : MissInv p c) :
    MissInv p (stepAct p c a) := by
  obtain ⟨hpc, hinv, hprog, hfin, hcan, herr⟩ := h
  cases a with
  | work e =>
      rcases hpc with hpc | hpc
      · rcases c with ⟨run, pau, gate, pc, dirs, invs, ws, evs⟩
        simp only at hpc hinv hprog hfin hcan herr
        subst hpc
        simp only [reduceCtorEq, if_false] at herr
        simp only [stepAct, workStep, hne, if_false, hb, Bool.false_eq_true]
        refine ⟨Or.inr rfl, hinv, ?_, ?_, ?_, ?_⟩
        · simp [List.filter_append, hprog, Event.isProgressEv]
        · simp [hfin]
        · simp [hcan]
        · simp [List.filter_append, herr, Event.isErrorEv]
      · have hstep : stepAct p c (.work e) = c := by
          rcases c with ⟨run, pau, gate, pc, dirs, invs, ws, evs⟩
          simp only at hpc
          subst hpc
          rfl
        rw [hstep]
        exact ⟨Or.inr hpc, hinv, hprog, hfin, hcan, herr⟩
  | stop => exact ⟨hpc, hinv, hprog, hfin, hcan, herr⟩
  | pause =>
      simp only [stepAct, pauseStep]
      split
      · refine ⟨hpc, hinv, ?_, ?_, ?_, ?_⟩
        · simp [List.filter_append, hprog, Event.isProgressEv]
        · simp [hfin]
        · simp [hcan]
        · simp only [List.filter_append]
          rw [herr]
          simp [Event.isErrorEv]
      · exact ⟨hpc, hinv, hprog, hfin, hcan, herr⟩
  | resume =>
      simp only [stepAct, resumeStep]
      split
      · refine ⟨hpc, hinv, ?_, ?_, ?_, ?_⟩
        · simp [List.filter_append, hprog, Event.isProgressEv]
        · simp [hfin]
        · simp [hcan]
        · simp only [List.filter_append]
          rw [herr]
          simp [Event.isErrorEv]
      · exact ⟨hpc, hinv, hprog, hfin, hcan, herr⟩

/-- Preservation: `EmptyInv` is preserved by every action when the file list is
empty. -/
theorem emptyInv_step (p : Params) (hlen : p.selected_files.length = 0)
    (c : Config) (a : Act) (h : EmptyInv c) : EmptyInv (stepAct p c a) := by
  obtain ⟨hpc, hinv, hdirs, hprog, herr, hcan, hfin⟩ := h
  cases a with
  | work e =>
      rcases hpc with hpc | hpc
      · rcases c with ⟨run, pau, gate, pc, dirs, invs, ws, evs⟩
        simp only at hpc hinv hdirs hprog herr hcan hfin
        subst hpc
        simp only [reduceCtorEq, if_false] at hfin
        simp only [stepAct, workStep, hlen, if_true]
        refine ⟨Or.inr rfl, hinv, hdirs, ?_, ?_, ?_, ?_⟩
        · simp [List.filter_append, hprog, Event.isProgressEv]
        · simp [List.filter_append, herr, Event.isErrorEv]
        · simp [hcan]
        · simp [List.filter_append, hfin, Event.isFinishedEv]
      · have hstep : stepAct p c (.work e) = c := by
          rcases c with ⟨run, pau, gate, pc, dirs, invs, ws, evs⟩
          simp only at hpc
          subst hpc
          rfl
        rw [hstep]
        exact ⟨Or.inr hpc, hinv, hdirs, hprog, herr, hcan, hfin⟩
  | stop => exact ⟨hpc, hinv, hdirs, hprog, herr, hcan, hfin⟩
  | pause =>
      simp only [stepAct, pauseStep]
      split
      · refine ⟨hpc, hinv, hdirs, ?_, ?_, ?_, ?_⟩
        · simp [List.filter_append, hprog, Event.isProgressEv]
        · simp [List.filter_append, herr, Event.isErrorEv]
        · simp [hcan]
        · simp only [List.filter_append]
          rw [hfin]
          simp [Event.isFinishedEv]
      · exact ⟨hpc, hinv, hdirs, hprog, herr, hcan, hfin⟩
  | resume =>
      simp only [stepAct, resumeStep]
      split
      · refine ⟨hpc, hinv, hdirs, ?_, ?_, ?_, ?_⟩
        · simp [List.filter_append, hprog, Event.isProgressEv]
        · simp [List.filter_append, herr, Event.isErrorEv]
        · simp [hcan]
        · simp only [List.filter_append]
          rw [hfin]
          simp [Event.isFinishedEv]
      · exact ⟨hpc, hinv, hdirs, hprog, herr, hcan, hfin⟩

/-- Preservation: `DirInv` is preserved by every action when the file list is
non-empty. -/
theorem dirInv_step (p : Params) (hne : p.selected_files.length ≠ 0)
    (c : Config) (a : Act) (h : DirInv p c) : DirInv p (stepAct p c a) := by
  rcases h with hpc | hmem
  · cases a with
    | work e =>
        rcases c with ⟨run, pau, gate, pc, dirs, invs, ws, evs⟩
        simp only at hpc
        subst hpc
        simp only [stepAct, workStep, hne, if_false]
        split <;> exact Or.inr (by simp)
    | stop => exact Or.inl hpc
    | pause =>
        left
        simp only [stepAct, pauseStep]
        split <;> exact hpc
    | resume =>
        left
        simp only [stepAct, resumeStep]
        split <;> exact hpc
  · obtain ⟨l, hl⟩ := stepAct_createdDirs p c a
    right
    rw [hl]
    exact List.mem_append_left _ hmem

/-- Every event of a clean pass is a progress event. -/
theorem progressFrom_mem_progress (p : Params) (k : Nat) : ∀ i, ∀ e ∈ progressFrom p i k,
    e.isProgressEv = true := by
  induction k with
  | zero => intro i e he; simp [progressFrom] at he
  | succ k ih =>
      intro i e he
      rcases List.mem_cons.mp he with he | he
      · subst he; rfl
      · exact ih (i + 1) e he

/-- C1: evaluation of the code at the failing input of the stop/finish
race.  One file, aria2c present; the user's stop is observed at the
inner supervision check (line 108) of the last (only) file, the
terminated process exits with code 1, and the run then emits
`progress(100, "a")` followed by `finished` — never `cancelled` —
although `stop()` was issued before any terminal event.  The claim (one
terminal event, always `Cancelled`, never `Finished`) fails; the code
contradicts its own comments at lines 67 ("优雅退出，不视为错误或完成")
and 151 ("所有文件都成功下载完毕"). -/
theorem c1_stop_race_eval :
    (execActs pOne initConfig
        [.work .poll, .work .poll, .stop, .work (.exits 1 ""), .work .poll, .work .poll]).events =
      [.progress 100 "a", .finished] ∧
    (execActs pOne initConfig
        [.work .poll, .work .poll, .stop, .work (.exits 1 ""), .work .poll, .work .poll]).waits =
      [1] ∧
    Event.cancelled ∉ (execActs pOne initConfig
        [.work .poll, .work .poll, .stop, .work (.exits 1 ""), .work .poll, .work .poll]).events := by
  decide

/-- C3: evaluation of the code at the failing input.  Two files, stop
observed during file 1's supervision; the terminated process exits with
code 1 (recorded in `waits`), yet the run emits `progress(50, "a")` for
that terminated, unfinished transfer before cancelling.  The claim that
no progress event is ever emitted for a terminated or unsuccessful
transfer fails: lines 141-143 run whenever line 136's
`return_code != 0 and self.running` is false, which includes every
non-zero exit observed after a stop. -/
theorem c3_terminated_progress_eval :
    (execActs pTwo initConfig
        [.work .poll, .work .poll, .stop, .work (.exits 1 "boom"), .work .poll, .work .poll]).events =
      [.progress 50 "a", .cancelled] ∧
    (execActs pTwo initConfig
        [.work .poll, .work .poll, .stop, .work (.exits 1 "boom"), .work .poll, .work .poll]).waits =
      [1] := by
  decide

/-- C2 (amended): for every non-empty file list, a run in which every
transfer exits 0 and no pause/stop is requested emits exactly
`len(files)` progress events, one per file in input order, whose
percents are the non-decreasing sequence `(j+1)*100/len(files)` ending
at 100, followed by exactly one finished event.  (Strict increase —
the original claim — fails for lists longer than 100 files; see the
counterexample.) -/
theorem c2_clean_run_progress (p : Params) (hne : p.selected_files.length ≠ 0)
    (hb : p.aria2cExists = true) :
    (execActs p initConfig (cleanActs p.selected_files.length)).pc = .done ∧
    (execActs p initConfig (cleanActs p.selected_files.length)).events =
      progressFrom p 0 p.selected_files.length ++ [.finished] ∧
    (execActs p initConfig (cleanActs p.selected_files.length)).events.length =
      p.selected_files.length + 1 ∧
    (∀ j, j < p.selected_files.length →
      (execActs p initConfig (cleanActs p.selected_files.length)).events.get? j =
        some (.progress (percentOf (j + 1) p.selected_files.length)
          ((p.selected_files.get? j).getD ""))) ∧
    (∀ j, percentOf (j + 1) p.selected_files.length ≤ percentOf (j + 2) p.selected_files.length) ∧
    percentOf p.selected_files.length p.selected_files.length = 100 := by
  rw [clean_run p hne hb]
  refine ⟨rfl, rfl, ?_, ?_, ?_, ?_⟩
  · simp [progressFrom_length]
  · intro j hj
    rw [List.get?_append (by rw [progressFrom_length]; exact hj)]
    have h := progressFrom_get? p p.selected_files.length 0 j hj
    simpa using h
  · intro j
    exact Nat.div_le_div_right (Nat.mul_le_mul_right 100 (by omega))
  · rw [percentOf, Nat.mul_comm]
    exact Nat.mul_div_cancel _ (Nat.pos_of_ne_zero hne)

/-- Witness for C2 (amended) at a concrete one-file request. -/
theorem c2_clean_run_progress_witness :
    (execActs pOne initConfig (cleanActs pOne.selected_files.length)).pc = .done :=
  (c2_clean_run_progress pOne (by decide) rfl).1

/-- C2 counterexample: with 102 files, the 51st and 52nd progress
events both carry percent 50 (`int(51/102*100) = int(52/102*100) = 50`),
so the emitted percents are not strictly increasing. -/
theorem c2_strictness_counterexample :
    (execActs pBig initConfig (cleanActs pBig.selected_files.length)).events.get? 50 =
      some (.progress 50 "50") ∧
    (execActs pBig initConfig (cleanActs pBig.selected_files.length)).events.get? 51 =
      some (.progress 50 "51") := by
  have hlen : pBig.selected_files.length = 102 := by
    simp [pBig]
  rw [clean_run pBig (by omega) rfl]
  constructor
  · rw [List.get?_append (by rw [progressFrom_length]; omega)]
    rw [progressFrom_get? pBig pBig.selected_files.length 0 50 (by omega)]
    rw [hlen]
    decide
  · rw [List.get?_append (by rw [progressFrom_length]; omega)]
    rw [progressFrom_get? pBig pBig.selected_files.length 0 51 (by omega)]
    rw [hlen]
    decide

/-- C4: if, with no stop requested, the transfer for file `k` (0-based,
`k < n`) exits with a non-zero code while files `0..k-1` all exited 0,
the run emits the progress events of files `0..k-1` only, then exactly
one error event carrying that file, exit code and stderr text, and
returns: exactly `k + 1` processes were ever launched (so files
`k+1..n-1` are never attempted) and no finished or cancelled event is
emitted. -/
theorem c4_transfer_failure (p : Params) (k rc : Nat) (err : String)
    (hb : p.aria2cExists = true) (hk : k < p.selected_files.length) (hrc : rc ≠ 0) :
    (execActs p initConfig (List.replicate (3 * k + 1) cleanAct ++
        List.replicate 3 (Act.work (.exits rc err)))).pc = .done ∧
    (execActs p initConfig (List.replicate (3 * k + 1) cleanAct ++
        List.replicate 3 (Act.work (.exits rc err)))).events =
      progressFrom p 0 k ++
        [.error (transferFailMsg ((p.selected_files.get? k).getD "") rc err)] ∧
    (execActs p initConfig (List.replicate (3 * k + 1) cleanAct ++
        List.replicate 3 (Act.work (.exits rc err)))).invocations.length = k + 1 ∧
    Event.finished ∉ (execActs p initConfig (List.replicate (3 * k + 1) cleanAct ++
        List.replicate 3 (Act.work (.exits rc err)))).events ∧
    Event.cancelled ∉ (execActs p initConfig (List.replicate (3 * k + 1) cleanAct ++
        List.replicate 3 (Act.work (.exits rc err)))).events := by
  obtain ⟨fk, hfk⟩ : ∃ f, p.selected_files.get? k = some f := ⟨_, List.get?_eq_get hk⟩
  have hne : p.selected_files.length ≠ 0 := by omega
  have hstep1 : stepAct p initConfig cleanAct =
      { running := true, is_paused := false, gateSet := true, pc := .loopTop 0,
        createdDirs := [pathJoin p.local_dir (lastSegment p.repo_id)],
        invocations := [], waits := [], events := [] } := by
    simp [stepAct, cleanAct, workStep, initConfig, hne, hb]
  rw [execActs_append, List.replicate_succ, execActs_cons, hstep1,
    clean_seg p k 0 _ rfl rfl rfl (by omega)]
  simp only [List.replicate_succ, List.replicate_zero, execActs_cons, execActs_nil]
  simp only [stepAct, workStep, Nat.zero_add, hfk, Bool.not_true, Bool.false_eq_true,
    if_false, ite_false, ite_true, if_true, Bool.and_true]
  have hbne : (rc != 0) = true := by simpa using hrc
  simp only [hbne, if_true, ite_true, List.nil_append, Option.getD_some]
  refine ⟨trivial, trivial, ?_, ?_, ?_⟩
  · simp [invFrom_length]
  · intro hmem
    rcases List.mem_append.mp hmem with hm | hm
    · have := progressFrom_mem_progress p k 0 _ hm
      simp [Event.isProgressEv] at this
    · simp at hm
  · intro hmem
    rcases List.mem_append.mp hmem with hm | hm
    · have := progressFrom_mem_progress p k 0 _ hm
      simp [Event.isProgressEv] at this
    · simp at hm

/-- Witness for C4 at a concrete two-file request failing on file 1. -/
theorem c4_transfer_failure_witness :
    (execActs pTwo initConfig (List.replicate (3 * 1 + 1) cleanAct ++
        List.replicate 3 (Act.work (.exits 1 "boom")))).pc = .done :=
  (c4_transfer_failure pTwo 1 1 "boom" rfl (by decide) (by decide)).1

/-- C5: with a non-empty file list and the aria2c executable missing,
no process is ever launched (no network activity), no progress,
finished or cancelled event is ever emitted, and once the run has
terminated its error events are exactly the single tooling-missing
error — whatever the controller does. -/
theorem c5_tooling_missing (p : Params) (s : List Act)
    (hne : p.selected_files.length ≠ 0) (hb : p.aria2cExists = false) :
    (execActs p initConfig s).invocations = [] ∧
    (execActs p initConfig s).events.filter Event.isProgressEv = [] ∧
    Event.finished ∉ (execActs p initConfig s).events ∧
    Event.cancelled ∉ (execActs p initConfig s).events ∧
    ((execActs p initConfig s).pc = .done →
      (execActs p initConfig s).events.filter Event.isErrorEv =
        [.error (toolingMissingMsg p)]) := by
  have h := execActs_induct (MissInv p) p (missInv_step p hne hb) s initConfig
    ⟨Or.inl rfl, rfl, rfl, by simp [initConfig], by simp [initConfig], by simp [initConfig]⟩
  obtain ⟨hpc, hinv, hprog, hfin, hcan, herr⟩ := h
  refine ⟨hinv, hprog, hfin, hcan, fun hd => ?_⟩
  rw [herr, if_pos hd]

/-- Witness for C5 at a concrete request with aria2c missing. -/
theorem c5_tooling_missing_witness :
    (execActs pMiss initConfig [Act.work .poll]).events.filter Event.isErrorEv =
      [.error (toolingMissingMsg pMiss)] :=
  (c5_tooling_missing pMiss [Act.work .poll] (by decide) rfl).2.2.2.2 rfl

/-- C6 (amended): when speed-limiting is enabled, the entered string is
accepted iff, after stripping, it is empty (treated as unlimited: no
rate flag is appended, since the empty string is falsy at line 90) or
its uppercasing contains at least one of the letters K, M, G anywhere
(line 537) — a strictly weaker test than the spec's
`<positive integer><K|M|G>` pattern, which it nevertheless subsumes, so
"500K", "2M", "10G" are accepted and passed via
`--max-download-limit`, while "500" is rejected before any worker is
created.  (Acceptance is not *exactly* pattern membership; see the
counterexample.) -/
theorem c6_speed_limit_validation :
    (∀ s, specSpeedPattern s = true → hasKMG s = true) ∧
    (∀ t, hasKMG (pyStrip t) = true → startSpeedLimit true t = some (some (pyStrip t))) ∧
    startSpeedLimit true "500K" = some (some "500K") ∧
    startSpeedLimit true "2M" = some (some "2M") ∧
    startSpeedLimit true "10G" = some (some "10G") ∧
    startSpeedLimit true "" = some (some "") ∧
    startSpeedLimit true "500" = none ∧
    startSpeedLimit false "500" = some none ∧
    (∀ p : Params, slTruthy p.speed_limit = false →
      ∀ file, buildCmd p file = baseCmd p file) ∧
    (∀ p : Params, slTruthy p.speed_limit = true →
      ∀ file, buildCmd p file = baseCmd p file ++
        ["--max-download-limit", slString p.speed_limit]) := by
  refine ⟨?_, ?_, by decide, by decide, by decide, by decide, by decide, by decide, ?_, ?_⟩
  · intro s hs
    unfold specSpeedPattern at hs
    cases hlast : s.toList.getLast? with
    | none => rw [hlast] at hs; exact absurd hs (by simp)
    | some u =>
        rw [hlast] at hs
        simp only [Bool.and_eq_true] at hs
        obtain ⟨⟨⟨hu, _⟩, _⟩, _⟩ := hs
        have hmem : u ∈ s.toList := List.mem_of_mem_getLast? hlast
        rw [hasKMG, List.any_eq_true]
        exact ⟨u.toUpper, List.mem_map_of_mem _ hmem, hu⟩
  · intro t ht
    rw [startSpeedLimit, if_pos rfl]
    simp [ht]
  · intro p hsl file
    simp [buildCmd, hsl]
  · intro p hsl file
    simp [buildCmd, hsl]

/-- Witness for C6 (amended). -/
theorem c6_speed_limit_validation_witness : hasKMG "500K" = true :=
  c6_speed_limit_validation.1 "500K" (by decide)

/-- C6 counterexample: the bare string "K" does not match the spec's
`<positive integer><K|M|G>` pattern, yet the code accepts it and would
pass it to aria2c, so "accepted exactly when it matches the pattern"
fails. -/
theorem c6_pattern_counterexample :
    startSpeedLimit true "K" = some (some "K") ∧ specSpeedPattern "K" = false := by
  decide

/-- C7: every invocation the session ever launches, under any schedule,
targets `https://huggingface.co/<repoId>/resolve/main/<file>` for some
file of the request, and writes to
`<destinationRoot>/<lastSegmentOfRepoId>/<file>` (split by the code
into aria2c's `--dir`/`--out` pair); the URL appears on the command
line.  The subdirectory component is `lastSegment p.repo_id` for every
file, computed from `repo_id` alone. -/
theorem c7_invocation_shape (p : Params) (s : List Act) (inv : Invocation)
    (hmem : inv ∈ (execActs p initConfig s).invocations) :
    ∃ file ∈ p.selected_files,
      inv.url = "https://huggingface.co/" ++ p.repo_id ++ "/resolve/main/" ++ file ∧
      inv.dir = dirname (p.local_dir ++ "/" ++ lastSegment p.repo_id ++ "/" ++ file) ∧
      inv.out = basename (p.local_dir ++ "/" ++ lastSegment p.repo_id ++ "/" ++ file) ∧
      inv.url ∈ inv.cmd := by
  have h := execActs_induct
    (fun c => ∀ inv ∈ c.invocations, ∃ file ∈ p.selected_files, inv = mkInvocation p file)
    p (fun c a hc => stepAct_invocations p c a hc) s initConfig (by simp [initConfig])
  obtain ⟨file, hf, heq⟩ := h inv hmem
  subst heq
  refine ⟨file, hf, rfl, rfl, rfl, ?_⟩
  simp [mkInvocation, buildCmd, baseCmd]

/-- Witness for C7 at a concrete two-step run that launched file "a". -/
theorem c7_invocation_shape_witness :
    ∃ file ∈ pTwo.selected_files,
      (mkInvocation pTwo "a").url =
        "https://huggingface.co/" ++ pTwo.repo_id ++ "/resolve/main/" ++ file ∧
      (mkInvocation pTwo "a").dir =
        dirname (pTwo.local_dir ++ "/" ++ lastSegment pTwo.repo_id ++ "/" ++ file) ∧
      (mkInvocation pTwo "a").out =
        basename (pTwo.local_dir ++ "/" ++ lastSegment pTwo.repo_id ++ "/" ++ file) ∧
      (mkInvocation pTwo "a").url ∈ (mkInvocation pTwo "a").cmd :=
  c7_invocation_shape pTwo [Act.work .poll, Act.work .poll] (mkInvocation pTwo "a") (by decide)

/-- C8: `pause()` invoked when `running` is already false changes no
field of the worker state and emits nothing, and `resume()` invoked
when not paused changes no field and emits nothing: the step returns
the configuration unchanged, so `running`, `is_paused` and the gate are
left exactly as they were. -/
theorem c8_pause_resume_noop (p : Params) (c : Config) :
    (c.running = false → stepAct p c .pause = c) ∧
    (c.is_paused = false → stepAct p c .resume = c) := by
  constructor
  · intro h
    simp [stepAct, pauseStep, h]
  · intro h
    simp [stepAct, resumeStep, h]

/-- Witness for C8 on the state right after a stop. -/
theorem c8_pause_resume_noop_witness :
    stepAct pOne (stopStep initConfig) .pause = stopStep initConfig ∧
    stepAct pOne (stopStep initConfig) .resume = stopStep initConfig :=
  ⟨(c8_pause_resume_noop pOne (stopStep initConfig)).1 rfl,
   (c8_pause_resume_noop pOne (stopStep initConfig)).2 rfl⟩

/-- C9: with an empty file list, under any schedule — and whether or
not aria2c exists, since nothing else constrains `p` — the run creates
no directory (it returns before the `os.makedirs` and binary checks),
launches nothing, emits no progress, error or cancelled event, and once
it has terminated its finished events are exactly one. -/
theorem c9_empty_list (p : Params) (s : List Act) (hempty : p.selected_files = []) :
    (execActs p initConfig s).invocations = [] ∧
    (execActs p initConfig s).createdDirs = [] ∧
    (execActs p initConfig s).events.filter Event.isProgressEv = [] ∧
    (execActs p initConfig s).events.filter Event.isErrorEv = [] ∧
    Event.cancelled ∉ (execActs p initConfig s).events ∧
    ((execActs p initConfig s).pc = .done →
      (execActs p initConfig s).events.filter Event.isFinishedEv = [.finished]) := by
  have hlen : p.selected_files.length = 0 := by rw [hempty]; rfl
  have h := execActs_induct EmptyInv p (emptyInv_step p hlen) s initConfig
    ⟨Or.inl rfl, rfl, rfl, rfl, rfl, by simp [initConfig], by simp [initConfig]⟩
  obtain ⟨hpc, hinv, hdirs, hprog, herr, hcan, hfin⟩ := h
  refine ⟨hinv, hdirs, hprog, herr, hcan, fun hd => ?_⟩
  rw [hfin, if_pos hd]

/-- Witness for C9 at the empty request with aria2c missing. -/
theorem c9_empty_list_witness :
    (execActs pEmpty initConfig [Act.work .poll]).events.filter Event.isFinishedEv =
      [.finished] :=
  (c9_empty_list pEmpty [Act.work .poll] rfl).2.2.2.2.2 rfl

/-- C10: with a non-empty file list, as soon as the worker has left the
prologue — under any schedule, in particular also when aria2c is
missing and the run stops at the tooling-missing error — the model
subdirectory `destinationRoot/<lastSegmentOfRepoId>` has been handed to
`os.makedirs`: line 56 runs before the line 61 existence check. -/
theorem c10_model_dir_created (p : Params) (s : List Act)
    (hne : p.selected_files.length ≠ 0)
    (hrun : (execActs p initConfig s).pc ≠ .start) :
    pathJoin p.local_dir (lastSegment p.repo_id) ∈ (execActs p initConfig s).createdDirs := by
  have h := execActs_induct (DirInv p) p (dirInv_step p hne) s initConfig (Or.inl rfl)
  rcases h with h | h
  · exact absurd h hrun
  · exact h

/-- Witness for C10 at a request whose aria2c is missing. -/
theorem c10_model_dir_created_witness :
    pathJoin pMiss.local_dir (lastSegment pMiss.repo_id) ∈
      (execActs pMiss initConfig [Act.work .poll]).createdDirs :=
  c10_model_dir_created pMiss [Act.work .poll] (by decide) (by decide)

end HFDL
